import Mathlib

/-!
Shallow embedding of `generate_multi_image.py` (AddressCards): the calendar
data model and string formatting, the card index permutations, the sheet
filename construction, identifier grouping, greedy text wrapping
(`textwrap.wrap` as called by `wrap_text`), and the PDF batch merge.
Database access and pixel operations are external collaborators; the
embedding keeps the data they hand to the core (rows, identifiers, strings)
and the control flow the core runs on them.
-/

/-- The five weekday keys of the `self.dates` dict in `Calendar.__init__`.
Any other day string raises `KeyError` in the source, so the embedded day
type carries exactly these five values. -/
inductive Day
  | monday
  | tuesday
  | wednesday
  | thursday
  | friday
deriving DecidableEq, Repr

/-- `self.dates`: maps each day name to its weekday index 0–4. -/
def dates : Day → Nat
  | .monday => 0
  | .tuesday => 1
  | .wednesday => 2
  | .thursday => 3
  | .friday => 4

/-- The day name as the Python string the row carries. -/
def dayName : Day → String
  | .monday => "Monday"
  | .tuesday => "Tuesday"
  | .wednesday => "Wednesday"
  | .thursday => "Thursday"
  | .friday => "Friday"

/-- One row of the `cal_query.sql` result as `Calendar.get_calendar_data`
reads it: `REFDay/REFWeek` (black bin), `RECYDay/RECYWeek` (recycling),
`GWDay/GWWeek` (garden waste, day possibly NULL). -/
structure CalRow where
  REFDay : Day
  REFWeek : Nat
  RECYDay : Day
  RECYWeek : Nat
  GWDay : Option Day
  GWWeek : Nat
deriving DecidableEq, Repr

/-- The eight per-stream fields `Calendar.get_calendar_data` assigns. -/
structure Calendar where
  black_bin_day : Day
  black_bin_week : Nat
  recycling_bin_day : Day
  recycling_bin_week : Nat
  recycling_box_day : Day
  recycling_box_week : Nat
  green_bin_day : Option Day
  green_bin_week : Nat
deriving DecidableEq, Repr

/-- `Calendar.get_calendar_data`: both the recycling-bin and the
recycling-box fields are read from the same `RECYDay`/`RECYWeek` columns. -/
def get_calendar_data (row : CalRow) : Calendar :=
  { black_bin_day := row.REFDay
    black_bin_week := row.REFWeek
    recycling_bin_day := row.RECYDay
    recycling_bin_week := row.RECYWeek
    recycling_box_day := row.RECYDay
    recycling_box_week := row.RECYWeek
    green_bin_day := row.GWDay
    green_bin_week := row.GWWeek }

/-- The format string `'{}   from   {} June 2018'.format(day, str(date))`. -/
def calendarLine (day : Day) (date : Nat) : String :=
  dayName day ++ "   from   " ++ toString date ++ " June 2018"

/-- The four display strings `Calendar.format_calendar_strings` assigns. -/
structure CalendarStrings where
  black_bin_str : String
  recycling_bin_str : String
  recycling_box_str : String
  green_bin_str : String
deriving DecidableEq, Repr

/-- `Calendar.format_calendar_strings`. The recycling-box else-branch
takes its weekday index from `self.dates[self.recycling_bin_day]` — the
bin's day, not the box's — exactly as the source does on line 115. -/
def format_calendar_strings (c : Calendar) : CalendarStrings :=
  { black_bin_str :=
      calendarLine c.black_bin_day
        (c.black_bin_week * 7 + dates c.black_bin_day + 4)
    recycling_bin_str :=
      calendarLine c.recycling_bin_day
        (c.recycling_bin_week * 7 + dates c.recycling_bin_day + 4)
    recycling_box_str :=
      if c.recycling_box_day = c.recycling_bin_day then ""
      else
        calendarLine c.recycling_box_day
          (c.recycling_box_week * 7 + dates c.recycling_bin_day + 4)
    green_bin_str :=
      match c.green_bin_day with
      | none => "Not collected"
      | some d => calendarLine d (c.green_bin_week * 7 + dates d + 4) }

/-- The spec's date formula: `(week_offset * 7) + weekday_index + epoch`. -/
def spec_computed_date (week_offset weekday_index epoch : Nat) : Nat :=
  week_offset * 7 + weekday_index + epoch

/-- The two `image_type` strings `CalendarImage` distinguishes. -/
inductive ImageType
  | SAME_COLLECTION
  | DIFFERENT_COLLECTION
deriving DecidableEq, Repr

/-- `CalendarImage.load_calendar_image`: assigns
`image_type = 'SAME_COLLECTION'` only when the recycling-box string is
empty; on any other calendar the attribute is never assigned, so a later
read of it raises `AttributeError` (modelled as `none`). -/
def load_calendar_image (strs : CalendarStrings) : Option ImageType :=
  if strs.recycling_box_str = "" then some ImageType.SAME_COLLECTION else none

/-- The index remap in `CalendarImage.__init__`: 1↔2 and 3↔4; any other
input leaves `self.index` unassigned (modelled as `none`). -/
def calRemap (index : Nat) : Option Nat :=
  if index = 1 then some 2
  else if index = 2 then some 1
  else if index = 3 then some 4
  else if index = 4 then some 3
  else none

/-- What a finished `CalendarImage` carries that the claims talk about:
the selected layout, the stamped positional index, and the strings. -/
structure CalendarCard where
  image_type : ImageType
  stamped_index : Nat
  strings : CalendarStrings
deriving DecidableEq, Repr

/-- `CalendarImage.__init__` followed by `build_calendar_image`: reading an
attribute that `load_calendar_image` or the remap never assigned raises
`AttributeError`, so construction is fallible. -/
def mkCalendarImage (strs : CalendarStrings) (index : Nat) :
    Except String CalendarCard :=
  match load_calendar_image strs with
  | none => Except.error "AttributeError: image_type"
  | some t =>
    match calRemap index with
    | none => Except.error "AttributeError: index"
    | some i => Except.ok { image_type := t, stamped_index := i, strings := strs }

/-- The orchestrator's `swapped_list = [l[1], l[0], l[3], l[2]]`: Python
raises `IndexError` on a list shorter than four (modelled as `none`). -/
def swappedList {α : Type} (l : List α) : Option (List α) :=
  match l.get? 1, l.get? 0, l.get? 3, l.get? 2 with
  | some b, some a, some d, some c => some [b, a, d, c]
  | _, _, _, _ => none

/-- Per group, the `(record, stamped index)` pairs of the address side:
`for number, uprn in enumerate(uprn_list, 1): AddressImage(address, number)`
stamps `self.index = number` unchanged. -/
def address_images {α : Type} (g : List α) : List (α × Nat) :=
  g.enum.map (fun p => (p.2, p.1 + 1))

/-- Per group, the `(record, stamped index)` pairs of the calendar side:
the records are enumerated in `swapped_list` order and each enumeration
index passes through the `CalendarImage` remap before being stamped. -/
def calendar_images {α : Type} (g : List α) : Option (List (α × Option Nat)) :=
  (swappedList g).map (fun sw => sw.enum.map (fun p => (p.2, calRemap (p.1 + 1))))

/-- `'-'.join(parts)` over identifier strings modelled as `List Char`. -/
def joinParts (sep : Char) (parts : List (List Char)) : List Char :=
  List.intercalate [sep] parts

/-- `AddressSide.__init__`: `filename = ['addr']`, then
`filename = [uprn] + filename` for each address image in list order. -/
def addressFilenameParts (uprns : List (List Char)) : List (List Char) :=
  uprns.foldl (fun acc u => u :: acc) ["addr".data]

/-- The address sheet filename (without directory and extension). -/
def addressFilename (uprns : List (List Char)) : List Char :=
  joinParts '-' (addressFilenameParts uprns)

/-- `CalendarSide.__init__`:
`unflipped_uprns = [uprns[2], uprns[3], uprns[0], uprns[1], 'cal']` over
the calendar images' (swapped-order) identifiers; indexing a shorter list
raises `IndexError` (modelled as `none`). -/
def calendarFilenameParts (uprns : List (List Char)) : Option (List (List Char)) :=
  match uprns.get? 2, uprns.get? 3, uprns.get? 0, uprns.get? 1 with
  | some c, some d, some a, some b => some [c, d, a, b, "cal".data]
  | _, _, _, _ => none

/-- The calendar sheet filename for a group, following the orchestrator:
the calendar images are built over `swapped_list`, and `CalendarSide`
derives the filename from their identifiers in that order. -/
def calendarFilename (g : List (List Char)) : Option (List Char) :=
  (swappedList g).bind (fun sw => (calendarFilenameParts sw).map (joinParts '-'))

/-- The slicing comprehension `[l[i:i + n] for i in range(0, len(l), n)]`
used by `get_uprns` (n = 4) and `convert_to_pdf` (n = 150). -/
def chunksOf {α : Type} (n : Nat) (l : List α) : List (List α) :=
  match l with
  | [] => []
  | x :: xs => (x :: xs).take n :: chunksOf n (xs.drop (n - 1))
termination_by l.length
decreasing_by
  simp only [List.length_cons, List.length_drop]
  omega

/-- `sorted(...)` over the output directory's file names: Python sorts
strings lexicographically. -/
def sortedFiles (files : List String) : List String :=
  files.mergeSort (fun a b => decide (a ≤ b))

/-- The inner loop of `convert_to_pdf` over one sublist: threads
`first_image` and the global `img_count`, collecting this sublist's
`loaded_images` (reset to `[]` for each sublist). An image becomes the new
`first_image` exactly when `img_count % 150 == 0`. -/
def pdfStep (acc : Option String × List String × Nat) (img : String) :
    Option String × List String × Nat :=
  if acc.2.2 % 150 = 0 then (some img, acc.2.1, acc.2.2 + 1)
  else (acc.1, acc.2.1 ++ [img], acc.2.2 + 1)

def processChunk (first : Option String) (imgCount : Nat) (chunk : List String) :
    Option String × List String × Nat :=
  chunk.foldl pdfStep (first, [], imgCount)

/-- The outer loop of `convert_to_pdf`: one saved document per sublist,
numbered by `list_count` starting at 1, whose pages are `first_image`
followed by `loaded_images` (reading `first_image` before any assignment
would be a `NameError`, modelled as `none`). -/
def convertToPdfLoop : Nat → Nat → Option String → List (List String) →
    List (Nat × Option (List String))
  | _, _, _, [] => []
  | listCount, imgCount, first, chunk :: rest =>
    match processChunk first imgCount chunk with
    | (f, loaded, c) =>
      (listCount + 1, f.map (fun x => x :: loaded)) ::
        convertToPdfLoop (listCount + 1) c f rest

/-- `convert_to_pdf`: sort the persisted files, split into sublists of at
most 150, and emit one numbered document per sublist. -/
def convertToPdf (files : List String) : List (Nat × Option (List String)) :=
  convertToPdfLoop 0 0 none (chunksOf 150 (sortedFiles files))

theorem chunksOf_eq_nil_iff {α : Type} (n : Nat) (l : List α) :
    chunksOf n l = [] ↔ l = [] := by
  cases l <;> simp [chunksOf]

theorem chunksOf_cons {α : Type} (n : Nat) (hn : 1 ≤ n) (x : α) (xs : List α) :
    chunksOf n (x :: xs) = (x :: xs).take n :: chunksOf n ((x :: xs).drop n) := by
  rw [chunksOf]
  obtain ⟨k, rfl⟩ : ∃ k, n = k + 1 := ⟨n - 1, by omega⟩
  rw [List.drop_succ_cons]
  simp

theorem chunksOf_flatten_bounded {α : Type} (n : Nat) (hn : 1 ≤ n) (len : Nat) :
    ∀ l : List α, l.length ≤ len → (chunksOf n l).flatten = l := by
  induction len with
  | zero =>
    intro l hl
    have : l = [] := by cases l <;> simp_all
    simp [this, chunksOf]
  | succ k ih =>
    intro l hl
    cases l with
    | nil => simp [chunksOf]
    | cons x xs =>
      rw [chunksOf_cons n hn, List.flatten_cons,
        ih _ (by simp only [List.length_drop, List.length_cons] at *; omega)]
      exact List.take_append_drop n (x :: xs)

theorem chunksOf_flatten {α : Type} (n : Nat) (hn : 1 ≤ n) (l : List α) :
    (chunksOf n l).flatten = l :=
  chunksOf_flatten_bounded n hn l.length l le_rfl

theorem chunksOf_mem_bounded {α : Type} (n : Nat) (hn : 1 ≤ n) (len : Nat) :
    ∀ l : List α, l.length ≤ len → ∀ g ∈ chunksOf n l, g ≠ [] ∧ g.length ≤ n := by
  induction len with
  | zero =>
    intro l hl
    have : l = [] := by cases l <;> simp_all
    simp [this, chunksOf]
  | succ k ih =>
    intro l hl
    cases l with
    | nil => simp [chunksOf]
    | cons x xs =>
      rw [chunksOf_cons n hn]
      intro g hg
      rcases List.mem_cons.mp hg with rfl | hg
      · constructor
        · simp only [ne_eq, List.take_eq_nil_iff]
          simp
          omega
        · simp [List.length_take]
      · exact ih ((x :: xs).drop n)
          (by simp only [List.length_drop, List.length_cons] at hl ⊢; omega) g hg

theorem chunksOf_mem {α : Type} (n : Nat) (hn : 1 ≤ n) (l : List α) :
    ∀ g ∈ chunksOf n l, g ≠ [] ∧ g.length ≤ n :=
  chunksOf_mem_bounded n hn l.length l le_rfl

theorem chunksOf_dropLast_bounded {α : Type} (n : Nat) (hn : 1 ≤ n) (len : Nat) :
    ∀ l : List α, l.length ≤ len → ∀ g ∈ (chunksOf n l).dropLast, g.length = n := by
  induction len with
  | zero =>
    intro l hl
    have : l = [] := by cases l <;> simp_all
    simp [this, chunksOf]
  | succ k ih =>
    intro l hl
    cases l with
    | nil => simp [chunksOf]
    | cons x xs =>
      rw [chunksOf_cons n hn]
      intro g hg
      by_cases hrest : chunksOf n ((x :: xs).drop n) = []
      · rw [hrest] at hg
        simp at hg
      · have hne : (x :: xs).drop n ≠ [] := by
          intro h
          rw [h] at hrest
          simp [chunksOf] at hrest
        have hlen : n < (x :: xs).length := by
          by_contra hc
          exact hne (List.drop_eq_nil_of_le (by omega))
        rw [List.dropLast_cons_of_ne_nil hrest] at hg
        rcases List.mem_cons.mp hg with rfl | hg
        · rw [List.length_take]
          simp only [List.length_cons] at hlen ⊢
          omega
        · exact ih ((x :: xs).drop n)
            (by simp only [List.length_drop, List.length_cons] at hl ⊢; omega) g hg

theorem chunksOf_dropLast {α : Type} (n : Nat) (hn : 1 ≤ n) (l : List α) :
    ∀ g ∈ (chunksOf n l).dropLast, g.length = n :=
  chunksOf_dropLast_bounded n hn l.length l le_rfl

theorem pdfStep_foldl_no_reset (t : List String) :
    ∀ (f0 : Option String) (acc : List String) (start : Nat),
      (∀ i, i < t.length → (start + i) % 150 ≠ 0) →
      t.foldl pdfStep (f0, acc, start) = (f0, acc ++ t, start + t.length) := by
  induction t with
  | nil =>
    intro f0 acc start _
    simp
  | cons img rest ih =>
    intro f0 acc start h
    have h0 : start % 150 ≠ 0 := by
      have := h 0 (by simp)
      simpa using this
    simp only [List.foldl_cons, pdfStep, if_neg h0]
    rw [ih f0 (acc ++ [img]) (start + 1) (fun i hi => by
      have heq : start + 1 + i = start + (i + 1) := by omega
      rw [heq]
      exact h (i + 1) (by simp only [List.length_cons]; omega))]
    simp only [List.append_assoc, List.singleton_append, List.length_cons,
      Prod.mk.injEq, true_and]
    omega

theorem processChunk_aligned (m : Nat) (first : Option String) (x : String)
    (xs : List String) (hlen : xs.length ≤ 149) :
    processChunk first (150 * m) (x :: xs) = (some x, xs, 150 * m + xs.length + 1) := by
  have h0 : (150 * m) % 150 = 0 := by omega
  simp only [processChunk, List.foldl_cons, pdfStep, if_pos h0]
  rw [pdfStep_foldl_no_reset xs (some x) [] (150 * m + 1) (fun i hi => by omega)]
  simp only [List.nil_append, Prod.mk.injEq, true_and]
  omega

theorem chunksOf_expand {α : Type} (n : Nat) (hn : 1 ≤ n) (l : List α) (hne : l ≠ []) :
    chunksOf n l = l.take n :: chunksOf n (l.drop n) := by
  cases l with
  | nil => exact absurd rfl hne
  | cons x xs => exact chunksOf_cons n hn x xs

theorem convertToPdfLoop_enum (C : List (List String)) :
    ∀ (n m : Nat) (f : Option String),
      (∀ g ∈ C.dropLast, g.length = 150) →
      (∀ g ∈ C, g ≠ [] ∧ g.length ≤ 150) →
      convertToPdfLoop n (150 * m) f C
        = (C.enumFrom n).map (fun p => (p.1 + 1, some p.2)) := by
  induction C with
  | nil =>
    intro n m f _ _
    rfl
  | cons c rest ih =>
    intro n m f hfull hmem
    obtain ⟨hne, hle⟩ := hmem c (List.mem_cons_self c rest)
    obtain ⟨x, xs, rfl⟩ : ∃ x xs, c = x :: xs := by
      cases c with
      | nil => exact absurd rfl hne
      | cons y ys => exact ⟨y, ys, rfl⟩
    simp only [convertToPdfLoop]
    rw [processChunk_aligned m f x xs (by simp only [List.length_cons] at hle; omega)]
    cases rest with
    | nil =>
      simp [List.enumFrom, convertToPdfLoop]
    | cons c2 rest2 =>
      have hc150 : (x :: xs).length = 150 :=
        hfull _ (by
          rw [List.dropLast_cons_of_ne_nil (by simp)]
          exact List.mem_cons_self _ _)
      have halign : 150 * m + xs.length + 1 = 150 * (m + 1) := by
        simp only [List.length_cons] at hc150
        omega
      rw [halign, ih (n + 1) (m + 1) (some x)
        (fun g hg => hfull g (by
          rw [List.dropLast_cons_of_ne_nil (by simp)]
          exact List.mem_cons_of_mem _ hg))
        (fun g hg => hmem g (List.mem_cons_of_mem _ hg))]
      simp [List.enumFrom]

theorem convertToPdf_enum (files : List String) :
    convertToPdf files
      = (chunksOf 150 (sortedFiles files)).enum.map (fun p => (p.1 + 1, some p.2)) := by
  have h := convertToPdfLoop_enum (chunksOf 150 (sortedFiles files)) 0 0 none
    (chunksOf_dropLast 150 (by omega) _) (chunksOf_mem 150 (by omega) _)
  simpa [convertToPdf, List.enum] using h

theorem chunksOf_150_map_length (l : List String) (hl : l.length = 320) :
    (chunksOf 150 l).map List.length = [150, 150, 20] := by
  have h1 : l ≠ [] := by
    intro h
    rw [h] at hl
    simp at hl
  rw [chunksOf_expand 150 (by omega) l h1]
  have hd1 : (l.drop 150).length = 170 := by simp [hl]
  rw [chunksOf_expand 150 (by omega) (l.drop 150) (by
    intro h
    rw [h] at hd1
    simp at hd1)]
  have hd2 : ((l.drop 150).drop 150).length = 20 := by simp [hl]
  rw [chunksOf_expand 150 (by omega) ((l.drop 150).drop 150) (by
    intro h
    rw [h] at hd2
    simp at hd2)]
  have hd3 : (((l.drop 150).drop 150).drop 150) = [] :=
    List.drop_eq_nil_of_le (by simp [hl])
  rw [hd3]
  simp [chunksOf, List.length_take, hl]

theorem docs_shape_of_map_length (chunks : List (List String))
    (h : chunks.map List.length = [150, 150, 20]) :
    (chunks.enum.map (fun p => (p.1 + 1, some p.2))).map
        (fun d => (d.1, d.2.map List.length))
      = [(1, some 150), (2, some 150), (3, some 20)] := by
  rcases chunks with _ | ⟨a, _ | ⟨b, _ | ⟨c, _ | ⟨d, t⟩⟩⟩⟩ <;>
    simp_all [List.enum, List.enumFrom]

/-- C1 (corrected): for a group of four identifiers, both sheet filenames
list the identifiers in REVERSED input order, not original order: splitting
the address filename on the delimiter yields `[u4, u3, u2, u1, "addr"]`,
and the calendar filename — built from the swapped render order — yields
`[u4, u3, u2, u1, "cal"]`. The two sides agree with each other and the
four identifiers are losslessly recoverable, but the order is the reverse
of the input order. -/
theorem sheet_filenames_agree (u1 u2 u3 u4 : List Char)
    (h1 : '-' ∉ u1) (h2 : '-' ∉ u2) (h3 : '-' ∉ u3) (h4 : '-' ∉ u4) :
    List.splitOn '-' (addressFilename [u1, u2, u3, u4])
        = [u4, u3, u2, u1, "addr".data]
    ∧ calendarFilename [u1, u2, u3, u4]
        = some (joinParts '-' [u4, u3, u2, u1, "cal".data])
    ∧ (calendarFilename [u1, u2, u3, u4]).map (List.splitOn '-')
        = some [u4, u3, u2, u1, "cal".data] := by
  have haddr : '-' ∉ "addr".data := by decide
  have hcal : '-' ∉ "cal".data := by decide
  have hsplit1 : List.splitOn '-' (joinParts '-' [u4, u3, u2, u1, "addr".data])
      = [u4, u3, u2, u1, "addr".data] := by
    apply List.splitOn_intercalate
    · intro l hl
      simp only [List.mem_cons, List.not_mem_nil, or_false] at hl
      rcases hl with rfl | rfl | rfl | rfl | rfl
      · exact h4
      · exact h3
      · exact h2
      · exact h1
      · exact haddr
    · simp
  have hsplit2 : List.splitOn '-' (joinParts '-' [u4, u3, u2, u1, "cal".data])
      = [u4, u3, u2, u1, "cal".data] := by
    apply List.splitOn_intercalate
    · intro l hl
      simp only [List.mem_cons, List.not_mem_nil, or_false] at hl
      rcases hl with rfl | rfl | rfl | rfl | rfl
      · exact h4
      · exact h3
      · exact h2
      · exact h1
      · exact hcal
    · simp
  have hparts : addressFilenameParts [u1, u2, u3, u4]
      = [u4, u3, u2, u1, "addr".data] := rfl
  have hcalf : calendarFilename [u1, u2, u3, u4]
      = some (joinParts '-' [u4, u3, u2, u1, "cal".data]) := rfl
  refine ⟨?_, hcalf, ?_⟩
  · rw [addressFilename, hparts]
    exact hsplit1
  · rw [hcalf]
    simp [hsplit2]

/-- C1 counterexample: for the concrete group `["1","2","3","4"]` the
address sheet filename splits into `["4","3","2","1","addr"]`, which is
not the original order `["1","2","3","4","addr"]` the claim states. -/
theorem sheet_filename_not_original_order :
    List.splitOn '-' (addressFilename ["1".data, "2".data, "3".data, "4".data])
        = ["4".data, "3".data, "2".data, "1".data, "addr".data]
    ∧ List.splitOn '-' (addressFilename ["1".data, "2".data, "3".data, "4".data])
        ≠ ["1".data, "2".data, "3".data, "4".data, "addr".data] := by
  constructor
  · decide
  · decide

/-- C1 witness: the amended theorem applied at the concrete group
`["1","2","3","4"]`. -/
theorem sheet_filenames_agree_witness :
    List.splitOn '-' (addressFilename ["1".data, "2".data, "3".data, "4".data])
        = ["4".data, "3".data, "2".data, "1".data, "addr".data]
    ∧ calendarFilename ["1".data, "2".data, "3".data, "4".data]
        = some (joinParts '-' ["4".data, "3".data, "2".data, "1".data, "cal".data])
    ∧ (calendarFilename ["1".data, "2".data, "3".data, "4".data]).map (List.splitOn '-')
        = some ["4".data, "3".data, "2".data, "1".data, "cal".data] :=
  sheet_filenames_agree "1".data "2".data "3".data "4".data
    (by decide) (by decide) (by decide) (by decide)

/-- C2 (corrected): `get_uprns` slices the identifier list into consecutive
groups of 4 in input order without losing any identifier; every group
except possibly the last has exactly 4 elements, and a trailing shorter
group IS produced (not dropped by the grouping). With 17 identifiers, 5
groups are produced — four of size 4 and a fifth holding the 1 remaining
identifier — and the orchestrator's pair swap fails on that short group
(`IndexError`), so its identifier is processed into no sheet. -/
theorem get_uprns_grouping (l : List Nat) :
    (∀ g ∈ (chunksOf 4 l).dropLast, g.length = 4)
    ∧ (chunksOf 4 l).flatten = l
    ∧ (∀ g ∈ chunksOf 4 l, g ≠ [] ∧ g.length ≤ 4)
    ∧ chunksOf 4 (List.range 17)
        = [[0, 1, 2, 3], [4, 5, 6, 7], [8, 9, 10, 11], [12, 13, 14, 15], [16]]
    ∧ swappedList ([16] : List Nat) = none :=
  ⟨chunksOf_dropLast 4 (by omega) l, chunksOf_flatten 4 (by omega) l,
    chunksOf_mem 4 (by omega) l, by simp [chunksOf, List.range_succ], rfl⟩

/-- C2 counterexample: with 17 identifiers the grouping produces 5 groups,
not 4, and the 17th identifier appears in a group (the trailing singleton
group), contradicting the claim that only groups of exactly 4 are produced
and that the remainder appears in no group. -/
theorem get_uprns_trailing_group :
    (chunksOf 4 (List.range 17)).length = 5
    ∧ [16] ∈ chunksOf 4 (List.range 17)
    ∧ (16 : Nat) ∈ (chunksOf 4 (List.range 17)).flatten := by
  have h : chunksOf 4 (List.range 17)
      = [[0, 1, 2, 3], [4, 5, 6, 7], [8, 9, 10, 11], [12, 13, 14, 15], [16]] := by
    simp [chunksOf, List.range_succ]
  rw [h]
  refine ⟨rfl, by decide, by decide⟩

/-- C4 (confirmed): `convert_to_pdf` enumerates the persisted files in
sorted (lexicographic) order, partitions them into consecutive chunks of
at most 150, and emits one document per chunk, numbered sequentially from
1, whose pages are exactly that chunk in order; with 320 files the result
is three documents numbered 1, 2, 3 with page counts 150, 150, 20. -/
theorem convert_to_pdf_batches (files : List String) :
    convertToPdf files
        = (chunksOf 150 (sortedFiles files)).enum.map (fun p => (p.1 + 1, some p.2))
    ∧ (chunksOf 150 (sortedFiles files)).flatten = sortedFiles files
    ∧ (∀ g ∈ chunksOf 150 (sortedFiles files), g ≠ [] ∧ g.length ≤ 150)
    ∧ List.Sorted (fun a b : String => a ≤ b) (sortedFiles files)
    ∧ (sortedFiles files).Perm files
    ∧ (files.length = 320 →
        (convertToPdf files).map (fun d => (d.1, d.2.map List.length))
          = [(1, some 150), (2, some 150), (3, some 20)]) := by
  refine ⟨convertToPdf_enum files, chunksOf_flatten 150 (by omega) _,
    chunksOf_mem 150 (by omega) _, ?_, List.mergeSort_perm files _, ?_⟩
  · have hpw : List.Pairwise (fun a b : String => decide (a ≤ b) = true)
        (sortedFiles files) :=
      @List.sorted_mergeSort String (fun a b => decide (a ≤ b))
        (fun a b c hab hbc =>
          decide_eq_true (le_trans (of_decide_eq_true hab) (of_decide_eq_true hbc)))
        (fun a b => by rcases le_total a b with h | h <;> simp [h])
        files
    exact hpw.imp (fun h => of_decide_eq_true h)
  · intro h320
    have hsl : (sortedFiles files).length = 320 := by
      rw [sortedFiles, List.length_mergeSort]
      exact h320
    rw [convertToPdf_enum files]
    exact docs_shape_of_map_length _ (chunksOf_150_map_length _ hsl)

/-- The concrete record of the spec's worked example: `week_offset = 1`,
day `"Wednesday"` for every stream, no garden-waste collection. -/
def wednesdayCal : Calendar :=
  { black_bin_day := Day.wednesday
    black_bin_week := 1
    recycling_bin_day := Day.wednesday
    recycling_bin_week := 1
    recycling_box_day := Day.wednesday
    recycling_box_week := 1
    green_bin_day := none
    green_bin_week := 0 }

/-- C5 (confirmed): each display string with a present day name carries the
computed date `(week_offset * 7) + weekday_index + 4`, with the weekday
index mapping Monday–Friday to 0–4; for `week_offset = 1`, day
`"Wednesday"`, the computed date is `(1*7)+2+4 = 13` and the display
string is `"Wednesday   from   13 June 2018"`. -/
theorem calendar_date_formula (c : Calendar) :
    (format_calendar_strings c).black_bin_str
        = calendarLine c.black_bin_day
            (spec_computed_date c.black_bin_week (dates c.black_bin_day) 4)
    ∧ (format_calendar_strings c).recycling_bin_str
        = calendarLine c.recycling_bin_day
            (spec_computed_date c.recycling_bin_week (dates c.recycling_bin_day) 4)
    ∧ (∀ d, c.green_bin_day = some d →
        (format_calendar_strings c).green_bin_str
          = calendarLine d (spec_computed_date c.green_bin_week (dates d) 4))
    ∧ (dates Day.monday = 0 ∧ dates Day.tuesday = 1 ∧ dates Day.wednesday = 2
        ∧ dates Day.thursday = 3 ∧ dates Day.friday = 4)
    ∧ spec_computed_date 1 (dates Day.wednesday) 4 = 13
    ∧ (format_calendar_strings wednesdayCal).black_bin_str
        = "Wednesday   from   13 June 2018" := by
  refine ⟨rfl, rfl, ?_, ⟨rfl, rfl, rfl, rfl, rfl⟩, rfl, by decide⟩
  intro d hd
  simp [format_calendar_strings, hd, calendarLine, spec_computed_date]

/-- C6 (code bug): with a recycling-box day different from the
recycling-bin day (box Thursday, bin Monday, box week 1), the code
formats the box string with the BIN's weekday index
(`self.dates[self.recycling_bin_day]`, giving date 11), not the box's own
weekday index as the claim states (which would give 14). -/
def mismatchCal : Calendar :=
  { black_bin_day := Day.monday
    black_bin_week := 1
    recycling_bin_day := Day.monday
    recycling_bin_week := 1
    recycling_box_day := Day.thursday
    recycling_box_week := 1
    green_bin_day := none
    green_bin_week := 0 }

/-- C6: at the mismatched record the code's recycling-box string is
`"Thursday   from   11 June 2018"` — day name and week from the box, but
weekday index from the bin — and differs from the string the other
streams' formatting rule would produce, `"Thursday   from   14 June
2018"`. The equal-days branch does suppress the box string as claimed. -/
theorem recycling_box_uses_bin_weekday :
    (format_calendar_strings mismatchCal).recycling_box_str
        = "Thursday   from   11 June 2018"
    ∧ (format_calendar_strings mismatchCal).recycling_box_str
        ≠ calendarLine mismatchCal.recycling_box_day
            (spec_computed_date mismatchCal.recycling_box_week
              (dates mismatchCal.recycling_box_day) 4)
    ∧ calendarLine Day.thursday (spec_computed_date 1 (dates Day.thursday) 4)
        = "Thursday   from   14 June 2018"
    ∧ (format_calendar_strings wednesdayCal).recycling_box_str = "" := by
  refine ⟨by decide, by decide, by decide, by decide⟩

/-- C7 (confirmed): an absent garden-waste day is a handled case, not an
error: the garden-waste string is exactly `"Not collected"`; with a
present day the string is formatted from the garden-waste day and week
like the other streams. -/
theorem green_bin_absent_handled (c : Calendar) :
    (c.green_bin_day = none →
      (format_calendar_strings c).green_bin_str = "Not collected")
    ∧ (∀ d, c.green_bin_day = some d →
      (format_calendar_strings c).green_bin_str
        = calendarLine d (c.green_bin_week * 7 + dates d + 4))
    ∧ (format_calendar_strings wednesdayCal).green_bin_str = "Not collected" := by
  refine ⟨?_, ?_, by decide⟩
  · intro h
    simp [format_calendar_strings, h]
  · intro d hd
    simp [format_calendar_strings, hd]

/-- C8 (confirmed): a calendar whose recycling-box string is non-empty
(the "different collection days" variant) makes `CalendarImage`
construction fail with an error — `load_calendar_image` never assigns
`image_type`, so `build_calendar_image` raises on reading it — rather
than silently producing a card with a blank region. -/
theorem different_collection_errors (strs : CalendarStrings) (idx : Nat)
    (h : strs.recycling_box_str ≠ "") :
    mkCalendarImage strs idx = Except.error "AttributeError: image_type" := by
  simp [mkCalendarImage, load_calendar_image, h]

/-- C8 witness: a concrete calendar with a non-empty recycling-box string
errors at index 1. -/
theorem different_collection_errors_witness :
    ({ black_bin_str := "", recycling_bin_str := "",
       recycling_box_str := "Thursday   from   11 June 2018",
       green_bin_str := "" } : CalendarStrings).recycling_box_str ≠ ""
    ∧ mkCalendarImage
        { black_bin_str := "", recycling_bin_str := "",
          recycling_box_str := "Thursday   from   11 June 2018",
          green_bin_str := "" } 1
      = Except.error "AttributeError: image_type" :=
  ⟨by decide, different_collection_errors _ 1 (by decide)⟩

/-- C9 (confirmed): the orchestrator's pair swap of the group order
composed with the `CalendarImage` index remap {1↔2, 3↔4} is the identity
on stamped indices: in a group `[a, b, c, d]` the address cards are
stamped 1, 2, 3, 4 in order, and the calendar cards — built over the
swapped list `[b, a, d, c]` — are stamped so each record's calendar card
carries the same index as its address card. -/
theorem calendar_address_stamp_agree (a b c d : Nat) :
    address_images [a, b, c, d] = [(a, 1), (b, 2), (c, 3), (d, 4)]
    ∧ swappedList [a, b, c, d] = some [b, a, d, c]
    ∧ calendar_images [a, b, c, d]
        = some [(b, some 2), (a, some 1), (d, some 4), (c, some 3)]
    ∧ calRemap 1 = some 2 ∧ calRemap 2 = some 1
    ∧ calRemap 3 = some 4 ∧ calRemap 4 = some 3 :=
  ⟨rfl, rfl, rfl, rfl, rfl, rfl, rfl⟩

/-- C10 (confirmed): `get_calendar_data` assigns the recycling-box fields
from the same row columns as the recycling-bin fields, so for every
fetched row the two days (and weeks) coincide, the box display string is
empty, `load_calendar_image` selects the SAME_COLLECTION layout, and no
constructed card can carry the DIFFERENT_COLLECTION layout. -/
theorem recycling_box_always_same (row : CalRow) :
    (get_calendar_data row).recycling_box_day
        = (get_calendar_data row).recycling_bin_day
    ∧ (get_calendar_data row).recycling_box_week
        = (get_calendar_data row).recycling_bin_week
    ∧ (format_calendar_strings (get_calendar_data row)).recycling_box_str = ""
    ∧ load_calendar_image (format_calendar_strings (get_calendar_data row))
        = some ImageType.SAME_COLLECTION
    ∧ (∀ idx card,
        mkCalendarImage (format_calendar_strings (get_calendar_data row)) idx
            = Except.ok card →
        card.image_type = ImageType.SAME_COLLECTION) := by
  have hbox : (format_calendar_strings (get_calendar_data row)).recycling_box_str
      = "" := by
    simp [format_calendar_strings, get_calendar_data]
  refine ⟨rfl, rfl, hbox, ?_, ?_⟩
  · simp [load_calendar_image, hbox]
  · intro idx card h
    rw [mkCalendarImage] at h
    rw [load_calendar_image, if_pos hbox] at h
    rcases hr : calRemap idx with _ | i
    · rw [hr] at h
      simp at h
    · rw [hr] at h
      simp only [Except.ok.injEq] at h
      rw [← h]
